import Mathlib

/-!
The generated-series join clause of gormseries

A shallow embedding of `gormseries.go`.

* A Go `string` is modelled as the list of its characters (`Str`); the program only
  concatenates, searches, splits and trims text, all of which agree on well-formed
  UTF-8 whether read as bytes or as code points.
* The standard-library functions the program calls (`strings.Contains`,
  `strings.Split`, `strings.TrimSpace`, `fmt.Sprintf`) are modelled by executable
  definitions of the same name.
* A `SeriesRange` is the record of the five strings its methods return.
* `interface{}` arguments are values of `Arg`, tagged with their dynamic type.
* A run-time panic (nil interface method call, slice index out of range) is `none`.
-/

namespace Gormseries

/-- Go `string`, as the list of its characters. -/
abbrev Str := List Char

/-! ## Standard library -/

namespace unicode

/-- Go `unicode.IsSpace`: the Latin-1 white space characters
`'\t' '\n' '\v' '\f' '\r' ' ' U+0085 U+00A0`, and above Latin-1 the `White_Space` table. -/
def IsSpace (r : Char) : Bool :=
  let n := r.toNat
  if n ≤ 0xFF then
    n == 0x09 || n == 0x0A || n == 0x0B || n == 0x0C || n == 0x0D || n == 0x20
      || n == 0x85 || n == 0xA0
  else
    n == 0x1680 || (0x2000 ≤ n && n ≤ 0x200A) || n == 0x2028 || n == 0x2029
      || n == 0x202F || n == 0x205F || n == 0x3000

end unicode

namespace strings

/-- Go `strings.Contains(s, substr)`: `substr` occurs somewhere within `s`. -/
def Contains : Str → Str → Bool
  | [], substr => substr.isEmpty
  | c :: s, substr => substr.isPrefixOf (c :: s) || Contains s substr

/-- The loop of `strings.Split` for a non-empty separator: `cur` holds (reversed) the text
since the last separator and `skip` counts the characters of a separator occurrence that
are still to be stepped over. -/
def splitLoop (sep : Str) : Str → Nat → Str → List Str
  | [], _, cur => [cur.reverse]
  | _ :: s, skip + 1, cur => splitLoop sep s skip cur
  | c :: s, 0, cur =>
    if sep.isPrefixOf (c :: s) then cur.reverse :: splitLoop sep s (sep.length - 1) []
    else splitLoop sep s 0 (c :: cur)

/-- Go `strings.Split(s, sep)`: the substrings of `s` between the occurrences of `sep`
(all of them, scanned left to right); with an empty `sep`, one string per character. -/
def Split (s sep : Str) : List Str :=
  if sep.isEmpty then s.map fun c => [c] else splitLoop sep s 0 []

/-- Go `strings.TrimSpace(s)`: `s` without its leading and trailing white space. -/
def TrimSpace (s : Str) : Str :=
  (s.dropWhile unicode.IsSpace).rdropWhile unicode.IsSpace

end strings

namespace fmt

/-- The text Go prints for operands left over once the format is used up. -/
def extraOperands : List Str → Str
  | [] => []
  | [a] => "string=".toList ++ a
  | a :: b :: rest => "string=".toList ++ a ++ ", ".toList ++ extraOperands (b :: rest)

/-- Go `fmt.Sprintf(format, args...)` for string operands and the verb `%v` (with `%%`),
which is all this program's formats use: each `%v` is replaced by the next operand,
printed as it is; a `%v` without operand prints `%!v(MISSING)` and operands left over
are reported as `%!(EXTRA ...)`. Other verbs do not occur in this program and are left
in place by the model. -/
def Sprintf : Str → List Str → Str
  | [], [] => []
  | [], a :: rest => "%!(EXTRA ".toList ++ extraOperands (a :: rest) ++ ")".toList
  | [c], args => if c = '%' then "%!(NOVERB)".toList ++ Sprintf [] args else c :: Sprintf [] args
  | c :: v :: format, args =>
    if c = '%' then
      if v = 'v' then
        match args with
        | a :: rest => a ++ Sprintf format rest
        | [] => "%!v(MISSING)".toList ++ Sprintf format []
      else if v = '%' then '%' :: Sprintf format args
      else c :: Sprintf (v :: format) args
    else c :: Sprintf (v :: format) args

end fmt

/-! ## The query builder -/

namespace gorm

/-- One builder call recorded on a query. -/
inductive Op where
  | Joins (query : Str)
  | Order (value : Str)
  deriving DecidableEq, Repr

/-- Modelled from the spec: the external query builder (`gorm.DB`), which is not part of
this repository. The spec only asks that it "support attaching a raw join fragment and a
raw order-by fragment to a query object" and return a query that can be chained further;
a query is modelled as the sequence of builder calls applied to it. -/
structure DB where
  ops : List Op
  deriving DecidableEq, Repr

/-- Modelled from the spec: attach a raw join fragment, giving the new query. -/
def DB.Joins (s : DB) (query : Str) : DB := ⟨s.ops ++ [Op.Joins query]⟩

/-- Modelled from the spec: attach a raw order-by fragment, giving the new query. -/
def DB.Order (s : DB) (value : Str) : DB := ⟨s.ops ++ [Op.Order value]⟩

/-- Modelled from the spec: `Scopes` passes the query through the given scope function. -/
def DB.Scopes (s : DB) (scope : DB → DB) : DB := scope s

end gorm

/-! ## gormseries.go -/

/-- The constant `generateSeriesSQLTemplate`. -/
def generateSeriesSQLTemplate : Str :=
  "\n\tRIGHT JOIN LATERAL ( \n\t\tSELECT * from generate_series(\n\t\t\t%v, %v, %v\n\t\t) %v \n\t) series ON %v".toList

/-- The interface `SeriesRange`: a value is given by what its five methods return. -/
structure SeriesRange where
  StartDate : Str
  EndDate : Str
  StepInterval : Str
  StepName : Str
  DefaultJoinCond : Str
  deriving DecidableEq, Repr

/-- The range `DaysYear` (type `daysYear`). -/
def DaysYear : SeriesRange where
  StartDate := "date_trunc('year', now())".toList
  EndDate := "date_trunc('year', now()) + INTERVAL '1 year - 1 day'".toList
  StepInterval := "INTERVAL '1 day'".toList
  StepName := "day".toList
  DefaultJoinCond := "day = date_trunc('day', created_at)".toList

/-- The range `MonthsYear` (type `monthsYear`). -/
def MonthsYear : SeriesRange where
  StartDate := "date_trunc('year', now())".toList
  EndDate := "date_trunc('year', now()) + INTERVAL '1 year - 1 day'".toList
  StepInterval := "INTERVAL '1 month'".toList
  StepName := "month".toList
  DefaultJoinCond := "month = date_trunc('month', created_at)".toList

/-- A value of type `interface{}` passed in `args`, by dynamic type. Only the dynamic type
`string` is told apart by the program; the other constructors stand for the values of any
other type. -/
inductive Arg where
  | str (val : Str)
  | bool (b : Bool)
  | int (n : Int)
  | nil
  deriving DecidableEq, Repr

/-- The type assertion `a.(string)` in its two-result form: the string and `ok = true`
when the dynamic type is `string`, no value otherwise. -/
def Arg.assertString : Arg → Option Str
  | Arg.str val => some val
  | _ => none

/-- The struct `SeriesDB`; `series` is `none` for a nil interface value. -/
structure SeriesDB where
  DB : gorm.DB
  series : Option SeriesRange
  args : List Arg

/-- The function `NewSeriesDB`: both `series` and `args` start out as zero values. -/
def NewSeriesDB (db : gorm.DB) : SeriesDB := ⟨db, none, []⟩

/-- The function `dateTruncFmt`. -/
def dateTruncFmt (precision date : Str) : Str :=
  let date := strings.TrimSpace date
  if !strings.Contains date "date_trunc".toList then
    fmt.Sprintf "date_trunc('%v', %v)".toList [precision, date]
  else date

/-- The local `genSeriesSQL` of `compileSeriesScopeFromRange`: the join fragment. -/
def genSeriesSQL (r : SeriesRange) (onClause : Str) : Str :=
  fmt.Sprintf generateSeriesSQLTemplate
    [r.StartDate, r.EndDate, r.StepInterval, r.StepName, onClause]

/-- The local `orderSQL` of `compileSeriesScopeFromRange`: the order fragment. -/
def orderSQL (r : SeriesRange) : Str :=
  fmt.Sprintf "%v ASC".toList [r.StepName]

/-- The function `compileSeriesScopeFromRange`. -/
def compileSeriesScopeFromRange (r : SeriesRange) (onClause : Str) : gorm.DB → gorm.DB :=
  fun db => (db.Joins (genSeriesSQL r onClause)).Order (orderSQL r)

/-- The first part of `BuildScope`, up to the comment `apply scope`: the value of the local
`clause`. Calling a method of a nil `series` panics, and so does indexing `clauseParts`
out of range. -/
def buildClause (series : Option SeriesRange) (args : List Arg) : Option Str :=
  if args.length > 0 then
    match args[0]? with
    | none => none
    | some a =>
      match a.assertString with
      | some val =>
        let clause := val
        if strings.Contains clause "=".toList then do
          let clauseParts := strings.Split clause "=".toList
          let part1 := dateTruncFmt (← series).StepName (← clauseParts[0]?)
          let part2 := dateTruncFmt (← series).StepName (← clauseParts[1]?)
          pure (fmt.Sprintf "%v = %v".toList [part1, part2])
        else pure clause
      | none => do pure (← series).DefaultJoinCond
  else do pure (← series).DefaultJoinCond

/-- The method `BuildScope`. -/
def BuildScope (sdb : SeriesDB) : Option gorm.DB := do
  let clause ← buildClause sdb.series sdb.args
  let scope := compileSeriesScopeFromRange (← sdb.series) clause
  pure (sdb.DB.Scopes scope)

/-- The method `TimeSeries`: the receiver after the call, and the query returned. -/
def TimeSeries (sdb : SeriesDB) (series : Option SeriesRange) (args : List Arg) :
    SeriesDB × Option gorm.DB :=
  let sdb := { sdb with series := series, args := args }
  (sdb, BuildScope sdb)

/-! ## Facts about the standard-library model -/

namespace strings

theorem Contains_iff (s substr : Str) : Contains s substr = true ↔ substr <:+: s := by
  induction s with
  | nil => cases substr <;> simp [Contains]
  | cons c s ih => simp [Contains, ih, List.infix_cons_iff]

theorem Contains_eq_iff_mem (s : Str) : Contains s ['='] = true ↔ '=' ∈ s := by
  induction s with
  | nil => simp [Contains]
  | cons c s ih =>
    simp [Contains, ih, List.isPrefixOf]

theorem splitLoop_eq_of_not_mem (s cur : Str) (h : '=' ∉ s) :
    splitLoop ['='] s 0 cur = [cur.reverse ++ s] := by
  induction s generalizing cur with
  | nil => simp [splitLoop]
  | cons c s ih =>
    simp only [List.mem_cons, not_or] at h
    have hc : ¬ ('=' = c) := h.1
    simp [splitLoop, List.isPrefixOf, hc, ih _ h.2]

theorem splitLoop_eq_append (a t cur : Str) (h : '=' ∉ a) :
    splitLoop ['='] (a ++ '=' :: t) 0 cur
      = (cur.reverse ++ a) :: splitLoop ['='] t 0 [] := by
  induction a generalizing cur with
  | nil => simp [splitLoop, List.isPrefixOf]
  | cons c a ih =>
    simp only [List.mem_cons, not_or] at h
    have hc : ¬ ('=' = c) := h.1
    simp [splitLoop, List.isPrefixOf, hc, ih _ h.2]

theorem Split_eq_of_not_mem (s : Str) (h : '=' ∉ s) : Split s ['='] = [s] := by
  simp [Split, splitLoop_eq_of_not_mem s [] h]

theorem Split_eq_append (a t : Str) (h : '=' ∉ a) :
    Split (a ++ '=' :: t) ['='] = a :: Split t ['='] := by
  simp [Split, splitLoop_eq_append a t [] h]

theorem dropWhile_append_cons (p : Char → Bool) (l t : Str) (x : Char) (hx : p x = false) :
    (l ++ x :: t).dropWhile p = l.dropWhile p ++ x :: t := by
  induction l with
  | nil => simp [hx]
  | cons c l ih => by_cases hc : p c <;> simp [List.dropWhile_cons, hc, ih]

theorem rdropWhile_append_cons (p : Char → Bool) (l t : Str) (y : Char) (hy : p y = false) :
    (l ++ y :: t).rdropWhile p = l ++ y :: t.rdropWhile p := by
  have h := dropWhile_append_cons p t.reverse l.reverse y hy
  simp only [List.rdropWhile, List.reverse_append, List.reverse_cons, List.append_assoc,
    List.singleton_append, h, List.reverse_reverse]

theorem TrimSpace_sandwich (l mid r : Str) (x y : Char)
    (hx : unicode.IsSpace x = false) (hy : unicode.IsSpace y = false) :
    TrimSpace (l ++ x :: mid ++ y :: r)
      = l.dropWhile unicode.IsSpace ++ x :: mid ++ y :: r.rdropWhile unicode.IsSpace := by
  unfold TrimSpace
  have h1 : l ++ x :: mid ++ y :: r = l ++ x :: (mid ++ y :: r) := by simp
  rw [h1, dropWhile_append_cons _ _ _ _ hx]
  have h2 : List.dropWhile unicode.IsSpace l ++ x :: (mid ++ y :: r)
      = (List.dropWhile unicode.IsSpace l ++ x :: mid) ++ y :: r := by simp
  rw [h2, rdropWhile_append_cons _ _ _ _ hy]

theorem TrimSpace_within (s : Str) : TrimSpace s <:+: s :=
  List.IsInfix.trans ( List.rdropWhile_prefix _ _).isInfix (List.dropWhile_suffix _).isInfix

theorem TrimSpace_idempotent (s : Str) : TrimSpace (TrimSpace s) = TrimSpace s := by
  unfold TrimSpace
  have key : ∀ t : Str, t.dropWhile unicode.IsSpace = t →
      (t.rdropWhile unicode.IsSpace).dropWhile unicode.IsSpace
        = t.rdropWhile unicode.IsSpace := by
    intro t ht
    cases t with
    | nil => simp
    | cons x t =>
      have hx : unicode.IsSpace x = false := by
        by_contra hx
        simp only [Bool.not_eq_false] at hx
        rw [List.dropWhile_cons_of_pos hx] at ht
        have := (List.dropWhile_suffix unicode.IsSpace (l := t)).length_le
        rw [ht] at this
        simp at this
      obtain ⟨u, hu⟩ : ∃ u, (x :: t).rdropWhile unicode.IsSpace = u := ⟨_, rfl⟩
      have hp : u <+: x :: t := hu ▸ List.rdropWhile_prefix _ _
      rw [hu]
      cases u with
      | nil => simp
      | cons z u =>
        have hz : z = x := by
          obtain ⟨w, hw⟩ := hp
          simp only [List.cons_append, List.cons.injEq] at hw
          exact hw.1
        subst hz
        simp [hx]
  rw [key _ (List.dropWhile_idempotent _ _), List.rdropWhile_idempotent]

end strings

theorem fmt.Sprintf_dateTrunc (precision date : Str) :
    fmt.Sprintf "date_trunc('%v', %v)".toList [precision, date]
      = "date_trunc('".toList ++ precision ++ "', ".toList ++ date ++ ")".toList := by
  simp [fmt.Sprintf]

theorem fmt.Sprintf_template (a b c d e : Str) :
    fmt.Sprintf generateSeriesSQLTemplate [a, b, c, d, e]
      = "\n\tRIGHT JOIN LATERAL ( \n\t\tSELECT * from generate_series(\n\t\t\t".toList ++ a
        ++ ", ".toList ++ b ++ ", ".toList ++ c ++ "\n\t\t) ".toList ++ d
        ++ " \n\t) series ON ".toList ++ e := by
  simp [fmt.Sprintf, generateSeriesSQLTemplate]

/-! ## Facts about the program -/

theorem strings.splitLoop_ne_nil (sep s : Str) (skip : Nat) (cur : Str) :
    strings.splitLoop sep s skip cur ≠ [] := by
  induction s generalizing skip cur with
  | nil => simp [strings.splitLoop]
  | cons c s ih =>
    cases skip with
    | zero =>
      simp only [strings.splitLoop]
      split
      · simp
      · exact ih _ _
    | succ k => simpa [strings.splitLoop] using ih k cur

theorem strings.Split_eq_cons_cons (s : Str) (h : '=' ∈ s) :
    ∃ a t p rest, s = a ++ '=' :: t ∧ '=' ∉ a ∧ strings.Split t ['='] = p :: rest
      ∧ strings.Split s ['='] = a :: p :: rest := by
  obtain ⟨a, t, hs, ha⟩ := List.eq_append_cons_of_mem h
  have hne : strings.Split t ['='] ≠ [] := by
    simpa [strings.Split] using strings.splitLoop_ne_nil ['='] t 0 []
  obtain ⟨p, rest, hp⟩ := List.exists_cons_of_ne_nil hne
  exact ⟨a, t, p, rest, hs, ha, hp, by rw [hs, strings.Split_eq_append a t ha, hp]⟩

theorem buildClause_nil (r : SeriesRange) :
    buildClause (some r) [] = some r.DefaultJoinCond := by
  simp [buildClause]

theorem buildClause_of_not_string (r : SeriesRange) (a : Arg) (rest : List Arg)
    (h : a.assertString = none) :
    buildClause (some r) (a :: rest) = some r.DefaultJoinCond := by
  simp [buildClause, h]

theorem buildClause_of_not_mem (r : SeriesRange) (s : Str) (rest : List Arg) (h : '=' ∉ s) :
    buildClause (some r) (Arg.str s :: rest) = some s := by
  have hc : strings.Contains s ['='] = false := by
    rw [← Bool.not_eq_true, strings.Contains_eq_iff_mem]; exact h
  simp [buildClause, Arg.assertString, hc]

theorem buildClause_of_split (r : SeriesRange) (s p1 p2 : Str) (ps : List Str)
    (rest : List Arg) (h : '=' ∈ s) (hsplit : strings.Split s ['='] = p1 :: p2 :: ps) :
    buildClause (some r) (Arg.str s :: rest)
      = some (dateTruncFmt r.StepName p1 ++ " = ".toList ++ dateTruncFmt r.StepName p2) := by
  have hc : strings.Contains s ['='] = true := (strings.Contains_eq_iff_mem s).2 h
  simp [buildClause, Arg.assertString, hc, hsplit, fmt.Sprintf]

theorem buildClause_isSome (r : SeriesRange) (args : List Arg) :
    ∃ c, buildClause (some r) args = some c := by
  cases args with
  | nil => exact ⟨_, buildClause_nil r⟩
  | cons a rest =>
    cases a with
    | str s =>
      by_cases h : '=' ∈ s
      · obtain ⟨a, t, p, ps, -, -, -, hsplit⟩ := strings.Split_eq_cons_cons s h
        exact ⟨_, buildClause_of_split r s a p ps rest h hsplit⟩
      · exact ⟨_, buildClause_of_not_mem r s rest h⟩
    | bool b => exact ⟨_, buildClause_of_not_string r _ rest rfl⟩
    | int n => exact ⟨_, buildClause_of_not_string r _ rest rfl⟩
    | nil => exact ⟨_, buildClause_of_not_string r _ rest rfl⟩

theorem TimeSeries_of_buildClause (sdb : SeriesDB) (r : SeriesRange) (args : List Arg)
    (c : Str) (h : buildClause (some r) args = some c) :
    (TimeSeries sdb (some r) args).2
      = some ((sdb.DB.Joins (genSeriesSQL r c)).Order (orderSQL r)) := by
  simp [TimeSeries, BuildScope, h, compileSeriesScopeFromRange, gorm.DB.Scopes]

theorem genSeriesSQL_eq (r : SeriesRange) (c : Str) :
    genSeriesSQL r c
      = "\n\tRIGHT JOIN LATERAL ( \n\t\tSELECT * from generate_series(\n\t\t\t".toList
        ++ r.StartDate ++ ", ".toList ++ r.EndDate ++ ", ".toList ++ r.StepInterval
        ++ "\n\t\t) ".toList ++ r.StepName ++ " \n\t) series ON ".toList ++ c := by
  simp [genSeriesSQL, fmt.Sprintf_template]

theorem orderSQL_eq (r : SeriesRange) : orderSQL r = r.StepName ++ " ASC".toList := by
  simp [orderSQL, fmt.Sprintf]

theorem dateTruncFmt_of_contains (precision date : Str)
    (h : strings.Contains (strings.TrimSpace date) "date_trunc".toList = true) :
    dateTruncFmt precision date = strings.TrimSpace date := by
  simp only [dateTruncFmt, h]
  rfl

theorem dateTruncFmt_of_not_contains (precision date : Str)
    (h : strings.Contains (strings.TrimSpace date) "date_trunc".toList = false) :
    dateTruncFmt precision date
      = "date_trunc('".toList ++ precision ++ "', ".toList ++ strings.TrimSpace date
        ++ ")".toList := by
  simp only [dateTruncFmt, h, fmt.Sprintf_dateTrunc]
  rfl

theorem Contains_TrimSpace_dateTrunc (date : Str) :
    strings.Contains (strings.TrimSpace date) "date_trunc".toList
      = strings.Contains date "date_trunc".toList := by
  rw [Bool.eq_iff_iff, strings.Contains_iff, strings.Contains_iff]
  constructor
  · exact fun h => h.trans (strings.TrimSpace_within date)
  · rintro ⟨l, r, rfl⟩
    have h := strings.TrimSpace_sandwich l "ate_trun".toList r 'd' 'c' (by decide) (by decide)
    have e : l ++ "date_trunc".toList ++ r = l ++ 'd' :: "ate_trun".toList ++ 'c' :: r := by
      simp
    rw [e, h]
    exact ⟨l.dropWhile unicode.IsSpace, r.rdropWhile unicode.IsSpace, by simp⟩

theorem genSeriesSQL_ends (r : SeriesRange) (c : Str) :
    ∃ pre : Str, genSeriesSQL r c = pre ++ "series ON ".toList ++ c :=
  ⟨"\n\tRIGHT JOIN LATERAL ( \n\t\tSELECT * from generate_series(\n\t\t\t".toList
      ++ r.StartDate ++ ", ".toList ++ r.EndDate ++ ", ".toList ++ r.StepInterval
      ++ "\n\t\t) ".toList ++ r.StepName ++ " \n\t) ".toList, by
    rw [genSeriesSQL_eq]
    simp⟩

theorem strings.Split_eq_append_append (a b t : Str) (ha : '=' ∉ a) (hb : '=' ∉ b) :
    strings.Split (a ++ '=' :: (b ++ '=' :: t)) ['='] = a :: b :: strings.Split t ['='] := by
  rw [strings.Split_eq_append a _ ha, strings.Split_eq_append b t hb]

theorem buildClause_of_two_parts (r : SeriesRange) (a b : Str) (rest : List Arg)
    (ha : '=' ∉ a) (hb : '=' ∉ b) :
    buildClause (some r) (Arg.str (a ++ '=' :: b) :: rest)
      = some (dateTruncFmt r.StepName a ++ " = ".toList ++ dateTruncFmt r.StepName b) := by
  have hsplit : strings.Split (a ++ '=' :: b) ['='] = [a, b] := by
    rw [strings.Split_eq_append a b ha, strings.Split_eq_of_not_mem b hb]
  exact buildClause_of_split r _ a b [] rest (by simp) hsplit

theorem buildClause_of_more_parts (r : SeriesRange) (a b t : Str) (rest : List Arg)
    (ha : '=' ∉ a) (hb : '=' ∉ b) :
    buildClause (some r) (Arg.str (a ++ '=' :: (b ++ '=' :: t)) :: rest)
      = some (dateTruncFmt r.StepName a ++ " = ".toList ++ dateTruncFmt r.StepName b) := by
  obtain ⟨p, ps, hp⟩ := List.exists_cons_of_ne_nil
    (show strings.Split t ['='] ≠ [] by
      simpa [strings.Split] using strings.splitLoop_ne_nil ['='] t 0 [])
  have hsplit := strings.Split_eq_append_append a b t ha hb
  rw [hp] at hsplit
  exact buildClause_of_split r _ a b (p :: ps) rest (by simp) hsplit

theorem buildClause_cons_congr (r : SeriesRange) (a : Arg) (rest rest' : List Arg) :
    buildClause (some r) (a :: rest) = buildClause (some r) (a :: rest') := by
  simp [buildClause]

theorem strings.not_mem_of_forall_IsSpace (w : Str) (hw : ∀ c ∈ w, unicode.IsSpace c = true) :
    '=' ∉ w := by
  intro h
  have := hw _ h
  revert this
  decide

theorem strings.TrimSpace_pad (w₁ a w₂ : Str) (h₁ : ∀ c ∈ w₁, unicode.IsSpace c = true)
    (h₂ : ∀ c ∈ w₂, unicode.IsSpace c = true) :
    strings.TrimSpace (w₁ ++ a ++ w₂) = strings.TrimSpace a := by
  have hr : ∀ u : Str, (u ++ w₂).rdropWhile unicode.IsSpace = u.rdropWhile unicode.IsSpace := by
    intro u
    simp only [List.rdropWhile, List.reverse_append]
    rw [List.dropWhile_append_of_pos (by simpa using h₂)]
  unfold strings.TrimSpace
  rw [List.append_assoc, List.dropWhile_append_of_pos h₁, List.dropWhile_append]
  split
  · rename_i he
    have hnil : List.dropWhile unicode.IsSpace a = [] := by simpa using he
    have h2nil : List.dropWhile unicode.IsSpace w₂ = [] := by
      rw [List.dropWhile_eq_nil_iff]; exact h₂
    rw [hnil, h2nil]
  · exact hr _

theorem dateTruncFmt_congr (precision d d' : Str)
    (h : strings.TrimSpace d = strings.TrimSpace d') :
    dateTruncFmt precision d = dateTruncFmt precision d' := by
  simp only [dateTruncFmt, h]

theorem dateTruncFmt_wrapped_or_kept (precision d : Str) :
    (strings.Contains d "date_trunc".toList = true
        ∧ dateTruncFmt precision d = strings.TrimSpace d)
    ∨ (strings.Contains d "date_trunc".toList = false
        ∧ dateTruncFmt precision d
          = "date_trunc('".toList ++ precision ++ "', ".toList ++ strings.TrimSpace d
            ++ ")".toList) := by
  cases h : strings.Contains d "date_trunc".toList with
  | true =>
    exact Or.inl ⟨rfl, dateTruncFmt_of_contains _ _ (by rw [Contains_TrimSpace_dateTrunc, h])⟩
  | false =>
    exact Or.inr ⟨rfl,
      dateTruncFmt_of_not_contains _ _ (by rw [Contains_TrimSpace_dateTrunc, h])⟩

theorem TrimSpace_dateTruncFmt (precision d : Str) :
    strings.TrimSpace (dateTruncFmt precision d) = dateTruncFmt precision d := by
  rcases dateTruncFmt_wrapped_or_kept precision d with ⟨-, h⟩ | ⟨-, h⟩
  · rw [h, strings.TrimSpace_idempotent]
  · rw [h]
    have hshape : "date_trunc('".toList ++ precision ++ "', ".toList ++ strings.TrimSpace d
          ++ ")".toList
        = [] ++ 'd' :: ("ate_trunc('".toList ++ precision ++ "', ".toList
            ++ strings.TrimSpace d) ++ ')' :: [] := by simp
    rw [hshape, strings.TrimSpace_sandwich _ _ _ _ _ (by decide) (by decide)]
    simp [List.rdropWhile]

theorem dateTruncFmt_ne_nil (precision d : Str) : dateTruncFmt precision d ≠ [] := by
  rcases dateTruncFmt_wrapped_or_kept precision d with ⟨hc, h⟩ | ⟨-, h⟩
  · rw [h]
    intro hnil
    rw [← Contains_TrimSpace_dateTrunc, hnil] at hc
    revert hc
    decide
  · rw [h]
    simp

/-! ## The claims -/

/-- C1: for each built-in range (`DaysYear`, `MonthsYear`), `TimeSeries` called without
override attaches a join fragment that ends with `series ON ` followed by the range's
`DefaultJoinCond()`, character for character. -/
theorem C1_default_on_predicate (sdb : SeriesDB) :
    (∃ pre : Str, (TimeSeries sdb (some DaysYear) []).2
        = some ((sdb.DB.Joins (pre ++ "series ON ".toList ++ DaysYear.DefaultJoinCond)).Order
            (orderSQL DaysYear)))
    ∧ (∃ pre : Str, (TimeSeries sdb (some MonthsYear) []).2
        = some ((sdb.DB.Joins (pre ++ "series ON ".toList ++ MonthsYear.DefaultJoinCond)).Order
            (orderSQL MonthsYear))) := by
  obtain ⟨pd, hd⟩ := genSeriesSQL_ends DaysYear DaysYear.DefaultJoinCond
  obtain ⟨pm, hm⟩ := genSeriesSQL_ends MonthsYear MonthsYear.DefaultJoinCond
  refine ⟨⟨pd, ?_⟩, ⟨pm, ?_⟩⟩
  · rw [TimeSeries_of_buildClause sdb DaysYear [] _ (buildClause_nil _), hd]
  · rw [TimeSeries_of_buildClause sdb MonthsYear [] _ (buildClause_nil _), hm]

/-- C2: when the first argument is not a string, `TimeSeries(r, args...)` returns the query
that `TimeSeries(r)` without override returns on the same underlying query: the same join
fragment and the same order fragment are attached. -/
theorem C2_non_string_override (sdb sdb' : SeriesDB) (r : SeriesRange) (a : Arg)
    (rest : List Arg) (hdb : sdb.DB = sdb'.DB) (ha : ∀ s : Str, a ≠ Arg.str s) :
    (TimeSeries sdb (some r) (a :: rest)).2 = (TimeSeries sdb' (some r) []).2 := by
  have h : a.assertString = none := by
    cases a with
    | str s => exact absurd rfl (ha s)
    | bool b => rfl
    | int n => rfl
    | nil => rfl
  rw [TimeSeries_of_buildClause sdb r _ _ (buildClause_of_not_string r a rest h),
    TimeSeries_of_buildClause sdb' r _ _ (buildClause_nil r), hdb]

theorem C2_non_string_override_witness :
    (NewSeriesDB ⟨[]⟩).DB = (NewSeriesDB ⟨[]⟩).DB
    ∧ (∀ s : Str, Arg.bool false ≠ Arg.str s)
    ∧ (TimeSeries (NewSeriesDB ⟨[]⟩) (some MonthsYear) [Arg.bool false, Arg.int 7]).2
        = (TimeSeries (NewSeriesDB ⟨[]⟩) (some MonthsYear) []).2 :=
  ⟨rfl, fun _ h => Arg.noConfusion h,
    C2_non_string_override (NewSeriesDB ⟨[]⟩) (NewSeriesDB ⟨[]⟩) MonthsYear (Arg.bool false)
      [Arg.int 7] rfl (fun _ h => Arg.noConfusion h)⟩

/-- C3: a string override without `=` is the effective condition as it stands (nothing is
trimmed, nothing is wrapped in `date_trunc`), and it is that text which fills the `ON`
place of the attached join fragment. -/
theorem C3_override_without_eq (sdb : SeriesDB) (r : SeriesRange) (s : Str)
    (rest : List Arg) (h : '=' ∉ s) :
    buildClause (some r) (Arg.str s :: rest) = some s
    ∧ (TimeSeries sdb (some r) (Arg.str s :: rest)).2
        = some ((sdb.DB.Joins (genSeriesSQL r s)).Order (orderSQL r)) :=
  ⟨buildClause_of_not_mem r s rest h,
    TimeSeries_of_buildClause sdb r _ s (buildClause_of_not_mem r s rest h)⟩

theorem C3_override_without_eq_witness :
    '=' ∉ "created_at".toList
    ∧ buildClause (some DaysYear) [Arg.str "created_at".toList] = some "created_at".toList
    ∧ (TimeSeries (NewSeriesDB ⟨[]⟩) (some DaysYear) [Arg.str "created_at".toList]).2
        = some (((NewSeriesDB ⟨[]⟩).DB.Joins
            (genSeriesSQL DaysYear "created_at".toList)).Order (orderSQL DaysYear)) :=
  ⟨by decide, C3_override_without_eq (NewSeriesDB ⟨[]⟩) DaysYear "created_at".toList []
    (by decide)⟩

/-- C4: for an override `a ++ "=" ++ b` where neither `a` nor `b` contains `=` or the text
`date_trunc`, the effective condition is `date_trunc('L', a') = date_trunc('L', b')`, with
`L` the step name of the range and `a'`, `b'` the parts `a`, `b` trimmed of white space. -/
theorem C4_override_with_eq (r : SeriesRange) (a b : Str) (rest : List Arg)
    (ha : '=' ∉ a) (hb : '=' ∉ b)
    (hta : strings.Contains a "date_trunc".toList = false)
    (htb : strings.Contains b "date_trunc".toList = false) :
    buildClause (some r) (Arg.str (a ++ "=".toList ++ b) :: rest)
      = some ("date_trunc('".toList ++ r.StepName ++ "', ".toList ++ strings.TrimSpace a
          ++ ") = date_trunc('".toList ++ r.StepName ++ "', ".toList ++ strings.TrimSpace b
          ++ ")".toList) := by
  have hsplit : strings.Split (a ++ "=".toList ++ b) ['='] = [a, b] := by
    have e : a ++ "=".toList ++ b = a ++ '=' :: b := by simp
    rw [e, strings.Split_eq_append a b ha, strings.Split_eq_of_not_mem b hb]
  have hmem : '=' ∈ a ++ "=".toList ++ b := by simp
  rw [buildClause_of_split r _ a b [] rest hmem hsplit,
    dateTruncFmt_of_not_contains _ a (by rw [Contains_TrimSpace_dateTrunc, hta]),
    dateTruncFmt_of_not_contains _ b (by rw [Contains_TrimSpace_dateTrunc, htb])]
  simp

theorem C4_override_with_eq_witness :
    ('=' ∉ "day ".toList ∧ '=' ∉ " created_at".toList)
    ∧ (strings.Contains "day ".toList "date_trunc".toList = false
        ∧ strings.Contains " created_at".toList "date_trunc".toList = false)
    ∧ buildClause (some DaysYear) [Arg.str "day = created_at".toList]
        = some "date_trunc('day', day) = date_trunc('day', created_at)".toList :=
  ⟨⟨by decide, by decide⟩, ⟨by decide, by decide⟩,
    C4_override_with_eq DaysYear "day ".toList " created_at".toList []
      (by decide) (by decide) (by decide) (by decide)⟩

/-- C5 as stated fails: a part that contains `date_trunc` and starts with a blank is not
returned as written, the blank is removed. -/
theorem C5_counterexample :
    strings.Contains " date_trunc('month', created_at)".toList "date_trunc".toList = true
    ∧ dateTruncFmt "day".toList " date_trunc('month', created_at)".toList
        = "date_trunc('month', created_at)".toList
    ∧ dateTruncFmt "day".toList " date_trunc('month', created_at)".toList
        ≠ " date_trunc('month', created_at)".toList := by
  decide

/-- C5, amended: a part that already contains `date_trunc` is never wrapped again; the
normalizer returns it with its leading and trailing white space removed and otherwise as
written, whatever the precision. -/
theorem C5_truncated_part_is_trimmed_only (p d : Str)
    (h : strings.Contains d "date_trunc".toList = true) :
    dateTruncFmt p d = strings.TrimSpace d :=
  dateTruncFmt_of_contains p d (by rw [Contains_TrimSpace_dateTrunc, h])

theorem C5_truncated_part_is_trimmed_only_witness :
    strings.Contains " date_trunc('month', created_at)\n".toList "date_trunc".toList = true
    ∧ dateTruncFmt "day".toList " date_trunc('month', created_at)\n".toList
        = strings.TrimSpace " date_trunc('month', created_at)\n".toList :=
  ⟨by decide, C5_truncated_part_is_trimmed_only "day".toList
    " date_trunc('month', created_at)\n".toList (by decide)⟩

/-- C6: the normalizer is idempotent, also across precisions: normalizing (at precision `q`)
what the normalizer returned (at precision `p`) changes nothing. -/
theorem C6_dateTruncFmt_idempotent (p q d : Str) :
    dateTruncFmt q (dateTruncFmt p d) = dateTruncFmt p d := by
  cases h : strings.Contains (strings.TrimSpace d) "date_trunc".toList with
  | true =>
    rw [dateTruncFmt_of_contains p d h]
    rw [dateTruncFmt_of_contains q _ (by rw [strings.TrimSpace_idempotent, h]),
      strings.TrimSpace_idempotent]
  | false =>
    rw [dateTruncFmt_of_not_contains p d h]
    have hshape : "date_trunc('".toList ++ p ++ "', ".toList ++ strings.TrimSpace d
          ++ ")".toList
        = [] ++ 'd' :: ("ate_trunc('".toList ++ p ++ "', ".toList ++ strings.TrimSpace d)
          ++ ')' :: [] := by simp
    have htrim : strings.TrimSpace ("date_trunc('".toList ++ p ++ "', ".toList
          ++ strings.TrimSpace d ++ ")".toList)
        = "date_trunc('".toList ++ p ++ "', ".toList ++ strings.TrimSpace d
          ++ ")".toList := by
      rw [hshape, strings.TrimSpace_sandwich _ _ _ _ _ (by decide) (by decide)]
      simp [List.rdropWhile]
    have hcont : strings.Contains ("date_trunc('".toList ++ p ++ "', ".toList
          ++ strings.TrimSpace d ++ ")".toList) "date_trunc".toList = true := by
      rw [strings.Contains_iff]
      exact ⟨[], "('".toList ++ p ++ "', ".toList ++ strings.TrimSpace d ++ ")".toList,
        by simp⟩
    rw [dateTruncFmt_of_contains q _ (by rw [htrim, hcont]), htrim]

/-- C7: whatever the arguments (none, a string with or without `=`, a value that is not a
string), the order fragment attached by `TimeSeries` is the step name of the range followed
by ` ASC`: `day ASC` for `DaysYear`, `month ASC` for `MonthsYear`. -/
theorem C7_order_fragment (sdb : SeriesDB) (r : SeriesRange) (args : List Arg) :
    (∃ join : Str, (TimeSeries sdb (some r) args).2
        = some ((sdb.DB.Joins join).Order (r.StepName ++ " ASC".toList)))
    ∧ orderSQL r = r.StepName ++ " ASC".toList
    ∧ orderSQL DaysYear = "day ASC".toList
    ∧ orderSQL MonthsYear = "month ASC".toList := by
  obtain ⟨c, hc⟩ := buildClause_isSome r args
  refine ⟨⟨genSeriesSQL r c, ?_⟩, orderSQL_eq r, by decide, by decide⟩
  rw [TimeSeries_of_buildClause sdb r args c hc, orderSQL_eq]

/-- C8: `TimeSeries` has no hidden state. Started from two receivers in arbitrary states
(any stored `series` and `args`, any underlying query), the call with the same range and
arguments attaches the same join fragment and the same order fragment, and these are the
fragments a fresh receiver computes: they depend on the range and the arguments only. -/
theorem C8_no_hidden_state (sdb₁ sdb₂ : SeriesDB) (r : SeriesRange) (args : List Arg) :
    ∃ join order : Str,
      (TimeSeries sdb₁ (some r) args).2 = some ((sdb₁.DB.Joins join).Order order)
      ∧ (TimeSeries sdb₂ (some r) args).2 = some ((sdb₂.DB.Joins join).Order order)
      ∧ (TimeSeries (NewSeriesDB ⟨[]⟩) (some r) args).2
          = some ⟨[gorm.Op.Joins join, gorm.Op.Order order]⟩ := by
  obtain ⟨c, hc⟩ := buildClause_isSome r args
  refine ⟨genSeriesSQL r c, orderSQL r, TimeSeries_of_buildClause sdb₁ r args c hc,
    TimeSeries_of_buildClause sdb₂ r args c hc, ?_⟩
  rw [TimeSeries_of_buildClause _ r args c hc]
  rfl

/-- C9: the join fragment is the text of `generateSeriesSQLTemplate` with its five
placeholders replaced, in this order and as they are, by the range's start date, end date,
step interval and step name and by the effective condition; the scope attaches it with
`Joins`. -/
theorem C9_join_fragment_rendering (r : SeriesRange) (c : Str) (db : gorm.DB) :
    genSeriesSQL r c
      = "\n\tRIGHT JOIN LATERAL ( \n\t\tSELECT * from generate_series(\n\t\t\t".toList
        ++ r.StartDate ++ ", ".toList ++ r.EndDate ++ ", ".toList ++ r.StepInterval
        ++ "\n\t\t) ".toList ++ r.StepName ++ " \n\t) series ON ".toList ++ c
    ∧ compileSeriesScopeFromRange r c db
      = (db.Joins ("\n\tRIGHT JOIN LATERAL ( \n\t\tSELECT * from generate_series(\n\t\t\t".toList
        ++ r.StartDate ++ ", ".toList ++ r.EndDate ++ ", ".toList ++ r.StepInterval
        ++ "\n\t\t) ".toList ++ r.StepName ++ " \n\t) series ON ".toList ++ c)).Order
          (orderSQL r) := by
  refine ⟨genSeriesSQL_eq r c, ?_⟩
  rw [compileSeriesScopeFromRange, genSeriesSQL_eq]

/-- C10: fragment construction never panics. For every (non-nil) range and every argument
list the condition is derived and `TimeSeries` returns a query; and a string that contains
`=` is split on `=` into at least two parts, so that `clauseParts[0]` and `clauseParts[1]`
exist. -/
theorem C10_no_panic (sdb : SeriesDB) (r : SeriesRange) (args : List Arg) :
    (buildClause (some r) args).isSome = true
    ∧ ((TimeSeries sdb (some r) args).2).isSome = true
    ∧ ∀ s : Str, strings.Contains s "=".toList = true →
        2 ≤ (strings.Split s "=".toList).length
          ∧ ((strings.Split s "=".toList)[0]?).isSome = true
          ∧ ((strings.Split s "=".toList)[1]?).isSome = true := by
  obtain ⟨c, hc⟩ := buildClause_isSome r args
  refine ⟨by rw [hc]; rfl, by rw [TimeSeries_of_buildClause sdb r args c hc]; rfl, ?_⟩
  intro s hs
  obtain ⟨a, t, p, rest, -, -, -, hsplit⟩ :=
    strings.Split_eq_cons_cons s ((strings.Contains_eq_iff_mem s).1 hs)
  have e : "=".toList = ['='] := rfl
  rw [e, hsplit]
  simp

theorem C10_no_panic_witness :
    strings.Contains "=".toList "=".toList = true
    ∧ (buildClause (some DaysYear) [Arg.str "=".toList]).isSome = true
    ∧ ((TimeSeries (NewSeriesDB ⟨[]⟩) (some DaysYear) [Arg.str "=".toList]).2).isSome = true
    ∧ 2 ≤ (strings.Split "=".toList "=".toList).length
    ∧ ((strings.Split "=".toList "=".toList)[0]?).isSome = true
    ∧ ((strings.Split "=".toList "=".toList)[1]?).isSome = true :=
  ⟨by decide,
    (C10_no_panic (NewSeriesDB ⟨[]⟩) DaysYear [Arg.str "=".toList]).1,
    (C10_no_panic (NewSeriesDB ⟨[]⟩) DaysYear [Arg.str "=".toList]).2.1,
    (C10_no_panic (NewSeriesDB ⟨[]⟩) DaysYear [Arg.str "=".toList]).2.2 "=".toList
      (by decide)⟩

/-- C11 as stated fails: with the override `a=b=c` the right part is `b`, the text between
the first and the second `=`, and not `b=c`, all the text after the first `=`. -/
theorem C11_counterexample :
    buildClause (some DaysYear) [Arg.str "a=b=c".toList]
      = some "date_trunc('day', a) = date_trunc('day', b)".toList
    ∧ buildClause (some DaysYear) [Arg.str "a=b=c".toList]
      ≠ some (dateTruncFmt DaysYear.StepName "a".toList ++ " = ".toList
          ++ dateTruncFmt DaysYear.StepName "b=c".toList) := by
  decide

/-- C11, amended: an override with more than one `=` is split at every `=`; the left part
is the text before the first `=`, the right part is the text between the first and the
second `=`, and the effective condition is the normalized left part, ` = `, and the
normalized right part, the normalizer being `dateTruncFmt` at the step name of the range.
The text from the second `=` on is not used. -/
theorem C11_split_parts (r : SeriesRange) (a b t : Str) (rest : List Arg)
    (ha : '=' ∉ a) (hb : '=' ∉ b) :
    (strings.Split (a ++ "=".toList ++ b ++ "=".toList ++ t) "=".toList)[0]? = some a
    ∧ (strings.Split (a ++ "=".toList ++ b ++ "=".toList ++ t) "=".toList)[1]? = some b
    ∧ buildClause (some r) (Arg.str (a ++ "=".toList ++ b ++ "=".toList ++ t) :: rest)
        = some (dateTruncFmt r.StepName a ++ " = ".toList ++ dateTruncFmt r.StepName b) := by
  have e : a ++ "=".toList ++ b ++ "=".toList ++ t = a ++ '=' :: (b ++ '=' :: t) := by simp
  have e' : "=".toList = ['='] := rfl
  rw [e, e', strings.Split_eq_append_append a b t ha hb]
  exact ⟨by simp, by simp, buildClause_of_more_parts r a b t rest ha hb⟩

theorem C11_split_parts_witness :
    ('=' ∉ "a ".toList ∧ '=' ∉ " b ".toList)
    ∧ (strings.Split "a = b = c".toList "=".toList)[0]? = some "a ".toList
    ∧ (strings.Split "a = b = c".toList "=".toList)[1]? = some " b ".toList
    ∧ buildClause (some MonthsYear) [Arg.str "a = b = c".toList]
        = some "date_trunc('month', a) = date_trunc('month', b)".toList :=
  ⟨⟨by decide, by decide⟩,
    C11_split_parts MonthsYear "a ".toList " b ".toList " c".toList [] (by decide) (by decide)⟩

/-- C12: the two built-in ranges have the documented shape. They share the start date (the
start of the current year) and the end date (the start date plus one year minus one day);
`DaysYear` steps by one day under the name `day`, `MonthsYear` by one month under the name
`month`; and the default join condition of each is its step name, ` = `, and the normalized
`created_at`. -/
theorem C12_built_in_ranges :
    (DaysYear.StartDate = MonthsYear.StartDate
      ∧ DaysYear.StartDate = "date_trunc('year', now())".toList)
    ∧ (DaysYear.EndDate = MonthsYear.EndDate
      ∧ DaysYear.EndDate = DaysYear.StartDate ++ " + INTERVAL '1 year - 1 day'".toList)
    ∧ (DaysYear.StepInterval = "INTERVAL '1 day'".toList ∧ DaysYear.StepName = "day".toList)
    ∧ (MonthsYear.StepInterval = "INTERVAL '1 month'".toList
      ∧ MonthsYear.StepName = "month".toList)
    ∧ DaysYear.DefaultJoinCond
        = DaysYear.StepName ++ " = ".toList
          ++ dateTruncFmt DaysYear.StepName "created_at".toList
    ∧ MonthsYear.DefaultJoinCond
        = MonthsYear.StepName ++ " = ".toList
          ++ dateTruncFmt MonthsYear.StepName "created_at".toList := by
  decide

/-- C13 as stated fails: without argument the condition for `DaysYear` is
`day = date_trunc('day', created_at)`, not the text `date_trunc('day', created_at) = day`
of the comment above `TimeSeries`. -/
theorem C13_counterexample :
    buildClause (some DaysYear) [] = some "day = date_trunc('day', created_at)".toList
    ∧ buildClause (some DaysYear) []
      ≠ some ("date_trunc('".toList ++ DaysYear.StepName ++ "', created_at) = day".toList) := by
  decide

/-- C13, amended: without argument the join condition is the range's `DefaultJoinCond()`,
which for the built-in ranges is the step name, then ` = date_trunc('`, the step name again
and `', created_at)`: `day = date_trunc('day', created_at)` for `DaysYear`. -/
theorem C13_default_condition_text (sdb : SeriesDB) :
    (∀ r : SeriesRange, buildClause (some r) [] = some r.DefaultJoinCond)
    ∧ buildClause (some DaysYear) []
        = some (DaysYear.StepName ++ " = date_trunc('".toList ++ DaysYear.StepName
            ++ "', created_at)".toList)
    ∧ buildClause (some MonthsYear) []
        = some (MonthsYear.StepName ++ " = date_trunc('".toList ++ MonthsYear.StepName
            ++ "', created_at)".toList)
    ∧ buildClause (some DaysYear) [] = some "day = date_trunc('day', created_at)".toList
    ∧ (TimeSeries sdb (some DaysYear) []).2
        = some ((sdb.DB.Joins
            (genSeriesSQL DaysYear "day = date_trunc('day', created_at)".toList)).Order
              (orderSQL DaysYear)) :=
  ⟨buildClause_nil, by decide, by decide, by decide,
    TimeSeries_of_buildClause sdb DaysYear [] _ (buildClause_nil DaysYear)⟩

/-- C14 as stated fails: with the override `day = date_trunc('month', created_at)` on
`DaysYear` the right side stays at precision `month`; wherever the condition is cut at a
` = `, what follows does not begin with `date_trunc('day', `. -/
theorem C14_counterexample :
    buildClause (some DaysYear) [Arg.str "day = date_trunc('month', created_at)".toList]
      = some "date_trunc('day', day) = date_trunc('month', created_at)".toList
    ∧ dateTruncFmt DaysYear.StepName " date_trunc('month', created_at)".toList
      = "date_trunc('month', created_at)".toList
    ∧ ¬ ∃ left right : Str,
        "date_trunc('day', day) = date_trunc('month', created_at)".toList
          = left ++ " = ".toList ++ right
        ∧ "date_trunc('day', ".toList <+: right := by
  refine ⟨by decide, by decide, ?_⟩
  rintro ⟨left, right, h, hr⟩
  have hlen := congrArg List.length h
  have hdrop := congrArg (List.drop (left.length + 3)) h
  have e : List.drop (left.length + 3) (left ++ " = ".toList ++ right) = right := by
    rw [List.append_assoc, List.drop_append_eq_append_drop]
    simp
  rw [e] at hdrop
  have hk : left.length ≤ 60 := by
    simp at hlen
    omega
  have hall : ∀ k, k ≤ 60 → List.isPrefixOf "date_trunc('day', ".toList
      (List.drop (k + 3) "date_trunc('day', day) = date_trunc('month', created_at)".toList)
        = false := by
    decide
  have := hall left.length hk
  rw [hdrop, List.isPrefixOf_iff_prefix.2 hr] at this
  exact Bool.noConfusion this

/-- C14, amended: for an override containing `=`, the condition is the normalized first
part, ` = `, and the normalized second part. A side whose part does not already contain
`date_trunc` is a truncation call at the precision of the range: `date_trunc('L', `, the
trimmed part and `)`. A side whose part already contains `date_trunc` is that part,
trimmed, at whatever precision it names. -/
theorem C14_sides_granularity (r : SeriesRange) (s : Str) (rest : List Arg) (h : '=' ∈ s) :
    ∃ (p1 p2 : Str) (ps : List Str),
      strings.Split s "=".toList = p1 :: p2 :: ps
      ∧ buildClause (some r) (Arg.str s :: rest)
          = some (dateTruncFmt r.StepName p1 ++ " = ".toList ++ dateTruncFmt r.StepName p2)
      ∧ ∀ p ∈ [p1, p2],
          (strings.Contains p "date_trunc".toList = false →
            dateTruncFmt r.StepName p
                = "date_trunc('".toList ++ r.StepName ++ "', ".toList ++ strings.TrimSpace p
                  ++ ")".toList
              ∧ "date_trunc('".toList ++ r.StepName ++ "', ".toList
                  <+: dateTruncFmt r.StepName p)
          ∧ (strings.Contains p "date_trunc".toList = true →
            dateTruncFmt r.StepName p = strings.TrimSpace p) := by
  obtain ⟨a, t, p, ps, -, -, -, hsplit⟩ := strings.Split_eq_cons_cons s h
  refine ⟨a, p, ps, hsplit, buildClause_of_split r s a p ps rest h hsplit, ?_⟩
  intro q _
  rcases dateTruncFmt_wrapped_or_kept r.StepName q with ⟨hc, hq⟩ | ⟨hc, hq⟩
  · exact ⟨fun hf => by rw [hc] at hf; exact Bool.noConfusion hf, fun _ => hq⟩
  · refine ⟨fun _ => ⟨hq, ?_⟩, fun ht => by rw [hc] at ht; exact Bool.noConfusion ht⟩
    rw [hq]
    exact ⟨strings.TrimSpace q ++ ")".toList, by simp⟩

theorem C14_sides_granularity_witness :
    '=' ∈ "day = date_trunc('month', created_at)".toList
    ∧ ∃ (p1 p2 : Str) (ps : List Str),
      strings.Split "day = date_trunc('month', created_at)".toList "=".toList = p1 :: p2 :: ps
      ∧ buildClause (some DaysYear) [Arg.str "day = date_trunc('month', created_at)".toList]
          = some (dateTruncFmt DaysYear.StepName p1 ++ " = ".toList
              ++ dateTruncFmt DaysYear.StepName p2)
      ∧ ∀ p ∈ [p1, p2],
          (strings.Contains p "date_trunc".toList = false →
            dateTruncFmt DaysYear.StepName p
                = "date_trunc('".toList ++ DaysYear.StepName ++ "', ".toList
                  ++ strings.TrimSpace p ++ ")".toList
              ∧ "date_trunc('".toList ++ DaysYear.StepName ++ "', ".toList
                  <+: dateTruncFmt DaysYear.StepName p)
          ∧ (strings.Contains p "date_trunc".toList = true →
            dateTruncFmt DaysYear.StepName p = strings.TrimSpace p) :=
  ⟨by decide,
    C14_sides_granularity DaysYear "day = date_trunc('month', created_at)".toList []
      (by decide)⟩

/-- C15: for an override with two or more `=`, the effective condition is built from the
text before the first `=` and the text between the first and the second `=` only. What
follows the second `=` is discarded: overrides that agree up to their second `=` give the
same condition and the same join fragment, those of the override cut before its second
`=`. So `a = b = c` and `a = b = d AND e` give the condition of `a = b`. -/
theorem C15_text_after_second_eq_discarded (sdb : SeriesDB) (r : SeriesRange)
    (a b t t' : Str) (rest : List Arg) (ha : '=' ∉ a) (hb : '=' ∉ b) :
    buildClause (some r) (Arg.str (a ++ "=".toList ++ b ++ "=".toList ++ t) :: rest)
      = buildClause (some r) (Arg.str (a ++ "=".toList ++ b) :: rest)
    ∧ buildClause (some r) (Arg.str (a ++ "=".toList ++ b ++ "=".toList ++ t) :: rest)
      = buildClause (some r) (Arg.str (a ++ "=".toList ++ b ++ "=".toList ++ t') :: rest)
    ∧ (TimeSeries sdb (some r)
          (Arg.str (a ++ "=".toList ++ b ++ "=".toList ++ t) :: rest)).2
      = (TimeSeries sdb (some r)
          (Arg.str (a ++ "=".toList ++ b ++ "=".toList ++ t') :: rest)).2
    ∧ (TimeSeries sdb (some r)
          (Arg.str (a ++ "=".toList ++ b ++ "=".toList ++ t) :: rest)).2
      = (TimeSeries sdb (some r) (Arg.str (a ++ "=".toList ++ b) :: rest)).2
    ∧ buildClause (some r) [Arg.str "a = b = c".toList]
      = buildClause (some r) [Arg.str "a = b".toList]
    ∧ buildClause (some r) [Arg.str "a = b = d AND e".toList]
      = buildClause (some r) [Arg.str "a = b".toList] := by
  have e2 : a ++ "=".toList ++ b = a ++ '=' :: b := by simp
  have e3 : ∀ u : Str, a ++ "=".toList ++ b ++ "=".toList ++ u = a ++ '=' :: (b ++ '=' :: u) := by
    intro u; simp
  have h2 := buildClause_of_two_parts r a b rest ha hb
  have h3 := fun u => buildClause_of_more_parts r a b u rest ha hb
  have hab := buildClause_of_two_parts r "a ".toList " b".toList [] (by decide) (by decide)
  have hc := buildClause_of_more_parts r "a ".toList " b ".toList " c".toList []
    (by decide) (by decide)
  have hd := buildClause_of_more_parts r "a ".toList " b ".toList " d AND e".toList []
    (by decide) (by decide)
  have hb' : dateTruncFmt r.StepName " b ".toList = dateTruncFmt r.StepName " b".toList :=
    dateTruncFmt_congr _ _ _ (by decide)
  rw [hb'] at hc hd
  refine ⟨?_, ?_, ?_, ?_, hc.trans hab.symm, hd.trans hab.symm⟩
  · rw [e3, e2, h2, h3]
  · rw [e3, e3, h3, h3]
  · rw [e3, e3, TimeSeries_of_buildClause sdb r _ _ (h3 t),
      TimeSeries_of_buildClause sdb r _ _ (h3 t')]
  · rw [e3, e2, TimeSeries_of_buildClause sdb r _ _ (h3 t),
      TimeSeries_of_buildClause sdb r _ _ h2]

theorem C15_text_after_second_eq_discarded_witness :
    ('=' ∉ "a ".toList ∧ '=' ∉ " b ".toList)
    ∧ buildClause (some DaysYear) [Arg.str "a = b = c".toList]
      = buildClause (some DaysYear) [Arg.str "a = b ".toList]
    ∧ buildClause (some DaysYear) [Arg.str "a = b = c".toList]
      = buildClause (some DaysYear) [Arg.str "a = b = d AND e".toList]
    ∧ (TimeSeries (NewSeriesDB ⟨[]⟩) (some DaysYear) [Arg.str "a = b = c".toList]).2
      = (TimeSeries (NewSeriesDB ⟨[]⟩) (some DaysYear) [Arg.str "a = b = d AND e".toList]).2
    ∧ (TimeSeries (NewSeriesDB ⟨[]⟩) (some DaysYear) [Arg.str "a = b = c".toList]).2
      = (TimeSeries (NewSeriesDB ⟨[]⟩) (some DaysYear) [Arg.str "a = b ".toList]).2
    ∧ buildClause (some DaysYear) [Arg.str "a = b = c".toList]
      = buildClause (some DaysYear) [Arg.str "a = b".toList]
    ∧ buildClause (some DaysYear) [Arg.str "a = b = d AND e".toList]
      = buildClause (some DaysYear) [Arg.str "a = b".toList] :=
  ⟨⟨by decide, by decide⟩,
    C15_text_after_second_eq_discarded (NewSeriesDB ⟨[]⟩) DaysYear "a ".toList " b ".toList
      " c".toList " d AND e".toList [] (by decide) (by decide)⟩

/-- C16: around either side of an override with `=`, white space does not matter. For
parts `a`, `b` without `=` and strings `w1` .. `w4` of white space only, the override
`w1 a w2 = w3 b w4` gives the condition of `a=b`; that condition is the normalized `a`,
then ` = `, then the normalized `b`, and neither side is empty or carries white space at
its ends, so exactly ` = ` stands between them. -/
theorem C16_whitespace_irrelevant (r : SeriesRange) (a b w1 w2 w3 w4 : Str)
    (rest : List Arg) (ha : '=' ∉ a) (hb : '=' ∉ b)
    (h1 : ∀ c ∈ w1, unicode.IsSpace c = true) (h2 : ∀ c ∈ w2, unicode.IsSpace c = true)
    (h3 : ∀ c ∈ w3, unicode.IsSpace c = true) (h4 : ∀ c ∈ w4, unicode.IsSpace c = true) :
    buildClause (some r) (Arg.str (w1 ++ a ++ w2 ++ "=".toList ++ w3 ++ b ++ w4) :: rest)
      = buildClause (some r) (Arg.str (a ++ "=".toList ++ b) :: rest)
    ∧ buildClause (some r) (Arg.str (a ++ "=".toList ++ b) :: rest)
      = some (dateTruncFmt r.StepName a ++ " = ".toList ++ dateTruncFmt r.StepName b)
    ∧ ∀ p ∈ [a, b], dateTruncFmt r.StepName p ≠ []
        ∧ strings.TrimSpace (dateTruncFmt r.StepName p) = dateTruncFmt r.StepName p := by
  have hl : '=' ∉ w1 ++ a ++ w2 := by
    simp only [List.mem_append, not_or]
    exact ⟨⟨strings.not_mem_of_forall_IsSpace w1 h1, ha⟩,
      strings.not_mem_of_forall_IsSpace w2 h2⟩
  have hr : '=' ∉ w3 ++ b ++ w4 := by
    simp only [List.mem_append, not_or]
    exact ⟨⟨strings.not_mem_of_forall_IsSpace w3 h3, hb⟩,
      strings.not_mem_of_forall_IsSpace w4 h4⟩
  have e : w1 ++ a ++ w2 ++ "=".toList ++ w3 ++ b ++ w4
      = (w1 ++ a ++ w2) ++ '=' :: (w3 ++ b ++ w4) := by simp
  have e' : a ++ "=".toList ++ b = a ++ '=' :: b := by simp
  refine ⟨?_, ?_, ?_⟩
  · rw [e, e', buildClause_of_two_parts r _ _ rest hl hr,
      buildClause_of_two_parts r a b rest ha hb,
      dateTruncFmt_congr _ _ a (strings.TrimSpace_pad w1 a w2 h1 h2),
      dateTruncFmt_congr _ _ b (strings.TrimSpace_pad w3 b w4 h3 h4)]
  · rw [e', buildClause_of_two_parts r a b rest ha hb]
  · intro p _
    exact ⟨dateTruncFmt_ne_nil _ p, TrimSpace_dateTruncFmt _ p⟩

theorem C16_whitespace_irrelevant_witness :
    ('=' ∉ "day".toList ∧ '=' ∉ "created_at".toList)
    ∧ buildClause (some DaysYear) [Arg.str "day = created_at".toList]
      = buildClause (some DaysYear) [Arg.str "day=created_at".toList]
    ∧ buildClause (some DaysYear) [Arg.str "day=created_at".toList]
      = some (dateTruncFmt DaysYear.StepName "day".toList ++ " = ".toList
          ++ dateTruncFmt DaysYear.StepName "created_at".toList)
    ∧ ∀ p ∈ ["day".toList, "created_at".toList], dateTruncFmt DaysYear.StepName p ≠ []
        ∧ strings.TrimSpace (dateTruncFmt DaysYear.StepName p)
          = dateTruncFmt DaysYear.StepName p :=
  ⟨⟨by decide, by decide⟩,
    C16_whitespace_irrelevant DaysYear "day".toList "created_at".toList [] " ".toList
      " ".toList [] [] (by decide) (by decide) (by decide) (by decide) (by decide)
      (by decide)⟩

/-- C17: only the first argument is consulted. Two non-empty argument lists with the same
first element give the same condition, and `TimeSeries` attaches the same join fragment and
the same order fragment for both, whatever the receivers and the remaining arguments. -/
theorem C17_only_first_argument (sdb₁ sdb₂ : SeriesDB) (r : SeriesRange) (a : Arg)
    (rest rest' : List Arg) :
    buildClause (some r) (a :: rest) = buildClause (some r) (a :: rest')
    ∧ (TimeSeries sdb₁ (some r) (a :: rest)).2 = (TimeSeries sdb₁ (some r) (a :: rest')).2
    ∧ ∃ join order : Str,
        (TimeSeries sdb₁ (some r) (a :: rest)).2 = some ((sdb₁.DB.Joins join).Order order)
        ∧ (TimeSeries sdb₂ (some r) (a :: rest')).2
          = some ((sdb₂.DB.Joins join).Order order) := by
  obtain ⟨c, hc⟩ := buildClause_isSome r (a :: rest)
  have hc' : buildClause (some r) (a :: rest') = some c :=
    (buildClause_cons_congr r a rest' rest).trans hc
  refine ⟨hc.trans hc'.symm, ?_, genSeriesSQL r c, orderSQL r,
    TimeSeries_of_buildClause sdb₁ r _ c hc, TimeSeries_of_buildClause sdb₂ r _ c hc'⟩
  rw [TimeSeries_of_buildClause sdb₁ r _ c hc, TimeSeries_of_buildClause sdb₁ r _ c hc']

/-- C18: with a query read as the sequence of builder calls applied to it, the scope made
by `compileSeriesScopeFromRange` adds to any query one `Joins` call with the join fragment
and after it one `Order` call with the order fragment, and nothing else: the calls already
on the query stay as they were, in front. This is what `TimeSeries` returns. -/
theorem C18_scope_frame (sdb : SeriesDB) (r : SeriesRange) (c : Str) (db : gorm.DB)
    (args : List Arg) :
    (compileSeriesScopeFromRange r c db).ops
      = db.ops ++ [gorm.Op.Joins (genSeriesSQL r c), gorm.Op.Order (orderSQL r)]
    ∧ (db.Scopes (compileSeriesScopeFromRange r c)).ops
      = db.ops ++ [gorm.Op.Joins (genSeriesSQL r c), gorm.Op.Order (orderSQL r)]
    ∧ ∃ clause : Str, buildClause (some r) args = some clause
        ∧ (TimeSeries sdb (some r) args).2
          = some ⟨sdb.DB.ops
              ++ [gorm.Op.Joins (genSeriesSQL r clause), gorm.Op.Order (orderSQL r)]⟩ := by
  refine ⟨by simp [compileSeriesScopeFromRange, gorm.DB.Joins, gorm.DB.Order],
    by simp [compileSeriesScopeFromRange, gorm.DB.Joins, gorm.DB.Order, gorm.DB.Scopes], ?_⟩
  obtain ⟨clause, hc⟩ := buildClause_isSome r args
  refine ⟨clause, hc, ?_⟩
  rw [TimeSeries_of_buildClause sdb r args clause hc]
  simp [gorm.DB.Joins, gorm.DB.Order]

end Gormseries
